import Mathlib

/-!
Shallow embedding of the Speed card-game engine (src/server/src/game/mod.rs)
together with the reachability relation induced by its public entry points
(`new`, `add_player`, `start_game`, `process_command`) and proofs of the
specification's claims about it.

Modelling conventions:
* `Uuid` is modelled as `Nat`.
* Rust `Vec` push/pop act on the back: a pile's top and the deck's next card
  are the *last* element of the Lean list.
* `VecDeque` (`draw_pile`) keeps its front at the *head* of the Lean list;
  `push_back` appends, `pop_front` takes the head.
* The in-place `shuffle` in `start_game` is non-deterministic; the embedding
  takes the shuffled deck as an explicit argument, and the reachability
  relation quantifies over all permutations of the current deck.
* The indexing `self.players[player_index]` in `create_player_view` can panic
  (empty roster); the embedding returns `Option PlayerView`, `none` exactly on
  the panicking executions.
-/

namespace Speed

inductive Suit where
  | Hearts
  | Diamonds
  | Clubs
  | Spades
deriving DecidableEq, Repr

inductive Rank where
  | Ace
  | Two
  | Three
  | Four
  | Five
  | Six
  | Seven
  | Eight
  | Nine
  | Ten
  | Jack
  | Queen
  | King
deriving DecidableEq, Repr

/-- Numeric value of a rank, `Rank::Ace = 1` through `Rank::King = 13`. -/
def Rank.val : Rank → Nat
  | .Ace => 1
  | .Two => 2
  | .Three => 3
  | .Four => 4
  | .Five => 5
  | .Six => 6
  | .Seven => 7
  | .Eight => 8
  | .Nine => 9
  | .Ten => 10
  | .Jack => 11
  | .Queen => 12
  | .King => 13

/-- `Rank::can_play_on`: adjacency, one higher or one lower with Ace/King
wrap-around.  The source computes on `u8`/`i16`; all values fit, so plain
integer subtraction is exact. -/
def Rank.can_play_on (self other : Rank) : Bool :=
  if self.val == 1 && other.val == 13 then true
  else if self.val == 13 && other.val == 1 then true
  else ((self.val : Int) - (other.val : Int)).natAbs == 1

structure Card where
  suit : Suit
  rank : Rank
deriving DecidableEq, Repr

instance : Inhabited Card := ⟨⟨Suit.Hearts, Rank.Ace⟩⟩

structure PlayerState where
  id : Nat
  hand : List Card
  draw_pile : List Card
deriving DecidableEq, Repr

instance : Inhabited PlayerState := ⟨⟨0, [], []⟩⟩

structure GameState where
  players : List PlayerState
  center_piles : List (List Card)
  deck : List Card
  game_started : Bool
  winner : Option Nat
deriving DecidableEq, Repr

structure PlayerView where
  player_id : Nat
  hand : List Card
  draw_pile_count : Nat
  opponent_hand_count : Nat
  opponent_draw_pile_count : Nat
  center_piles : List (List Card)
  game_started : Bool
  winner : Option Nat
deriving DecidableEq, Repr

inductive PlayerAction where
  | PlayCard (card_index : Nat)
  | RequestNewCenterCards
deriving DecidableEq, Repr

structure GameCommand where
  player_id : Nat
  action : PlayerAction
deriving DecidableEq, Repr

/-- `create_deck`: the 4 suits in source order, ranks 1..=13 each. -/
def create_deck : List Card :=
  [Suit.Hearts, Suit.Diamonds, Suit.Clubs, Suit.Spades].flatMap fun suit =>
    [Rank.Ace, Rank.Two, Rank.Three, Rank.Four, Rank.Five, Rank.Six, Rank.Seven,
     Rank.Eight, Rank.Nine, Rank.Ten, Rank.Jack, Rank.Queen, Rank.King].map fun rank =>
      { suit := suit, rank := rank }

/-- `GameState::new`. -/
def GameState.new : GameState :=
  { players := []
    center_piles := [[], []]
    deck := create_deck
    game_started := false
    winner := none }

/-- One `for _ in 0..n { if let Some(card) = deck.pop() { dest.push(card) } }`
loop: pops `n` cards off the back of `deck`, appending each to `dest`.
Returns the remaining deck and the extended destination. -/
def dealN : Nat → List Card → List Card → List Card × List Card
  | 0, deck, dest => (deck, dest)
  | n + 1, deck, dest =>
    match deck.getLast? with
    | none => dealN n deck dest
    | some card => dealN n deck.dropLast (dest ++ [card])

/-- `GameState::deal_cards`: each player in order receives 5 cards into the
hand and then 15 into the draw pile (`push_back`).  Returns the updated
players and the remaining deck. -/
def deal_cards : List PlayerState → List Card → List PlayerState × List Card
  | [], deck => ([], deck)
  | p :: ps, deck =>
    let r1 := dealN 5 deck p.hand
    let r2 := dealN 15 r1.1 p.draw_pile
    let r3 := deal_cards ps r2.1
    ({ p with hand := r1.2, draw_pile := r2.2 } :: r3.1, r3.2)

/-- `GameState::deal_center_cards`: each pile in order receives one popped
card if the deck still has one.  Also the body of
`request_new_center_cards`'s loop. -/
def deal_center_cards : List (List Card) → List Card → List (List Card) × List Card
  | [], deck => ([], deck)
  | pile :: piles, deck =>
    match deck.getLast? with
    | none =>
      let r := deal_center_cards piles deck
      (pile :: r.1, r.2)
    | some card =>
      let r := deal_center_cards piles deck.dropLast
      ((pile ++ [card]) :: r.1, r.2)

/-- `GameState::add_player`: appends a fresh empty-handed player when fewer
than 2 are present; otherwise returns `false` and the state unchanged. -/
def add_player (s : GameState) (id : Nat) : GameState × Bool :=
  if s.players.length ≥ 2 then (s, false)
  else ({ s with players := s.players ++ [{ id := id, hand := [], draw_pile := [] }] }, true)

/-- `GameState::start_game`, with the result of the in-place shuffle passed
in as `shuffled`: no-op unless exactly 2 players, otherwise replaces the deck
by `shuffled`, deals hands/draw piles, deals the center piles and sets
`game_started`. -/
def start_game (shuffled : List Card) (s : GameState) : GameState :=
  if s.players.length ≠ 2 then s
  else
    let r1 := deal_cards s.players shuffled
    let r2 := deal_center_cards s.center_piles r1.2
    { s with players := r1.1, center_piles := r2.1, deck := r2.2, game_started := true }

/-- The pile test in `play_card`'s scan:
`pile.is_empty() || card.rank.can_play_on(&pile.last().unwrap().rank)`. -/
def pile_accepts (card : Card) (pile : List Card) : Bool :=
  match pile.getLast? with
  | none => true
  | some top => card.rank.can_play_on top.rank

/-- `GameState::play_card`.  All the source's indexing is guarded in-bounds,
so `getD` with the `Inhabited` default is exact. -/
def play_card (s : GameState) (player_id : Nat) (card_index : Nat) : GameState :=
  match s.players.findIdx? (fun p => p.id == player_id) with
  | none => s
  | some player_index =>
    let player := s.players.getD player_index default
    if card_index ≥ player.hand.length then s
    else
      let card := player.hand.getD card_index default
      match s.center_piles.findIdx? (fun pile => pile_accepts card pile) with
      | none => s
      | some pile_index =>
        let hand1 := player.hand.eraseIdx card_index
        let piles1 := s.center_piles.set pile_index (s.center_piles.getD pile_index [] ++ [card])
        match player.draw_pile with
        | [] =>
          { s with
              players := s.players.set player_index { player with hand := hand1 }
              center_piles := piles1 }
        | new_card :: rest =>
          { s with
              players := s.players.set player_index
                { player with hand := hand1 ++ [new_card], draw_pile := rest }
              center_piles := piles1 }

/-- `GameState::request_new_center_cards`: no-op on an empty deck, otherwise
the same per-pile deal loop as `deal_center_cards`. -/
def request_new_center_cards (s : GameState) : GameState :=
  if s.deck.isEmpty then s
  else
    let r := deal_center_cards s.center_piles s.deck
    { s with center_piles := r.1, deck := r.2 }

/-- `GameState::check_winner`: the first player (in order) with empty hand
and empty draw pile becomes the winner. -/
def check_winner (s : GameState) : GameState :=
  match s.players.find? (fun p => p.hand.isEmpty && p.draw_pile.isEmpty) with
  | none => s
  | some p => { s with winner := some p.id }

/-- `GameState::process_command`: terminal guard, dispatch, win check. -/
def process_command (s : GameState) (command : GameCommand) : GameState :=
  if !s.game_started || s.winner.isSome then s
  else
    let s1 :=
      match command.action with
      | PlayerAction.PlayCard card_index => play_card s command.player_id card_index
      | PlayerAction.RequestNewCenterCards => request_new_center_cards s
    check_winner s1

/-- `GameState::create_player_view`.  `none` exactly when the source's
`self.players[player_index]` indexing panics (empty roster with the
`unwrap_or(0)` fallback). -/
def create_player_view (s : GameState) (player_id : Nat) : Option PlayerView :=
  let player_index := (s.players.findIdx? (fun p => p.id == player_id)).getD 0
  match s.players.get? player_index with
  | none => none
  | some player =>
    let counts :=
      if 1 < s.players.length then
        let opponent_index := if player_index == 0 then 1 else 0
        let opponent := s.players.getD opponent_index default
        (opponent.hand.length, opponent.draw_pile.length)
      else (0, 0)
    some
      { player_id := player_id
        hand := player.hand
        draw_pile_count := player.draw_pile.length
        opponent_hand_count := counts.1
        opponent_draw_pile_count := counts.2
        center_piles := s.center_piles
        game_started := s.game_started
        winner := s.winner }

/-- One public mutation of the engine, as invoked by the websocket layer:
`add_player`, `start_game` (with any permutation of the deck as the shuffle
outcome) or `process_command`. -/
inductive Step : GameState → GameState → Prop where
  | add (s : GameState) (id : Nat) : Step s (add_player s id).1
  | start (s : GameState) (shuffled : List Card) (h : shuffled.Perm s.deck) :
      Step s (start_game shuffled s)
  | cmd (s : GameState) (c : GameCommand) : Step s (process_command s c)

/-- States reachable from a fresh engine by any call sequence. -/
def Reachable (s : GameState) : Prop :=
  Relation.ReflTransGen Step GameState.new s

/-- Total number of cards a player holds. -/
def player_cards (p : PlayerState) : Nat :=
  p.hand.length + p.draw_pile.length

/-- Total number of cards anywhere in the state. -/
def total_cards (s : GameState) : Nat :=
  s.deck.length + (s.players.map player_cards).sum + (s.center_piles.map List.length).sum

/-- Structural invariant maintained by every public mutation: the pile count
stays 2, a started game has exactly 2 players, an unstarted engine is still
in its freshly-constructed shape, a started game with no winner has no player
who already emptied both hand and draw pile (`check_winner` runs after every
dispatched action), and the deck length stays even. -/
structure Inv (s : GameState) : Prop where
  piles_len : s.center_piles.length = 2
  started_players : s.game_started = true → s.players.length = 2
  fresh : s.game_started = false →
    s.deck = create_deck ∧ s.center_piles = [[], []] ∧ s.winner = none ∧
      ∀ p ∈ s.players, p.hand = [] ∧ p.draw_pile = []
  alive : s.game_started = true → s.winner = none →
    ∀ p ∈ s.players, p.hand ≠ [] ∨ p.draw_pile ≠ []
  deck_even : Even s.deck.length

/-- The deal scenario of the specification: a fresh engine, two players
added in order, then `start_game` with the given shuffle outcome. -/
def two_player_start (a b : Nat) (shuffled : List Card) : GameState :=
  start_game shuffled (add_player (add_player GameState.new a).1 b).1

/-- The deterministic deal used by the concrete witnesses: two players (ids
0 and 1) join a fresh engine and the game starts with the identity
shuffle. -/
def game_after_deal : GameState :=
  two_player_start 0 1 create_deck

/-- `game_after_deal` after five `RequestNewCenterCards` commands: the deck
(10 cards after the deal) is drained two cards at a time down to empty. -/
def game_deck_empty : GameState :=
  process_command (process_command (process_command (process_command (process_command
    game_after_deal
      ⟨0, PlayerAction.RequestNewCenterCards⟩) ⟨0, PlayerAction.RequestNewCenterCards⟩)
      ⟨0, PlayerAction.RequestNewCenterCards⟩) ⟨0, PlayerAction.RequestNewCenterCards⟩)
      ⟨0, PlayerAction.RequestNewCenterCards⟩

end Speed

namespace Speed

/-! ### Lemmas about the dealing loops -/

theorem dealN_fst_len (n : Nat) (deck dest : List Card) :
    (dealN n deck dest).1.length = deck.length - n := by
  induction n generalizing deck dest with
  | zero => simp [dealN]
  | succ n ih =>
    cases h : deck.getLast? with
    | none =>
      have hd : deck = [] := List.getLast?_eq_none_iff.mp h
      subst hd
      simp [dealN, ih]
    | some card =>
      simp only [dealN, h, ih, List.length_dropLast]
      omega

theorem dealN_snd (n : Nat) (deck dest : List Card) :
    ∃ t, (dealN n deck dest).2 = dest ++ t ∧ t.length = min n deck.length := by
  induction n generalizing deck dest with
  | zero => exact ⟨[], by simp [dealN]⟩
  | succ n ih =>
    cases h : deck.getLast? with
    | none =>
      have hd : deck = [] := List.getLast?_eq_none_iff.mp h
      subst hd
      obtain ⟨t, ht, htl⟩ := ih [] dest
      exact ⟨t, by simp [dealN, ht], by simpa using htl⟩
    | some card =>
      obtain ⟨t, ht, htl⟩ := ih deck.dropLast (dest ++ [card])
      have hpos : 0 < deck.length := by
        rcases deck with _ | _
        · simp at h
        · simp
      refine ⟨card :: t, ?_, ?_⟩
      · simp only [dealN, h, ht]
        simp
      · simp only [List.length_cons, htl, List.length_dropLast]
        omega

theorem dealN_conserve (n : Nat) (deck dest : List Card) :
    (dealN n deck dest).1.length + (dealN n deck dest).2.length
      = deck.length + dest.length := by
  have h1 := dealN_fst_len n deck dest
  obtain ⟨t, ht, htl⟩ := dealN_snd n deck dest
  rw [h1, ht, List.length_append]
  omega

theorem deal_cards_fst_len (ps : List PlayerState) (deck : List Card) :
    (deal_cards ps deck).1.length = ps.length := by
  induction ps generalizing deck with
  | nil => simp [deal_cards]
  | cons p ps ih => simp [deal_cards, ih]

theorem deal_cards_snd_len (ps : List PlayerState) (deck : List Card) :
    (deal_cards ps deck).2.length = deck.length - 20 * ps.length := by
  induction ps generalizing deck with
  | nil => simp [deal_cards]
  | cons p ps ih =>
    simp only [deal_cards, ih, dealN_fst_len, List.length_cons]
    omega

theorem deal_cards_conserve (ps : List PlayerState) (deck : List Card) :
    (deal_cards ps deck).2.length + ((deal_cards ps deck).1.map player_cards).sum
      = deck.length + (ps.map player_cards).sum := by
  induction ps generalizing deck with
  | nil => simp [deal_cards]
  | cons p ps ih =>
    simp only [deal_cards, List.map_cons, List.sum_cons, player_cards]
    have h1 := dealN_conserve 5 deck p.hand
    have h2 := dealN_conserve 15 (dealN 5 deck p.hand).1 p.draw_pile
    have h3 := ih (dealN 15 (dealN 5 deck p.hand).1 p.draw_pile).1
    omega

theorem deal_center_cards_fst_len (piles : List (List Card)) (deck : List Card) :
    (deal_center_cards piles deck).1.length = piles.length := by
  induction piles generalizing deck with
  | nil => simp [deal_center_cards]
  | cons pile piles ih =>
    cases h : deck.getLast? with
    | none => simp [deal_center_cards, h, ih]
    | some card => simp [deal_center_cards, h, ih]

theorem deal_center_cards_snd_len (piles : List (List Card)) (deck : List Card) :
    (deal_center_cards piles deck).2.length = deck.length - piles.length := by
  induction piles generalizing deck with
  | nil => simp [deal_center_cards]
  | cons pile piles ih =>
    cases h : deck.getLast? with
    | none =>
      have hd : deck = [] := List.getLast?_eq_none_iff.mp h
      subst hd
      simp [deal_center_cards, ih]
    | some card =>
      simp only [deal_center_cards, h, ih, List.length_dropLast, List.length_cons]
      omega

theorem deal_center_cards_conserve (piles : List (List Card)) (deck : List Card) :
    (deal_center_cards piles deck).2.length
        + ((deal_center_cards piles deck).1.map List.length).sum
      = deck.length + (piles.map List.length).sum := by
  induction piles generalizing deck with
  | nil => simp [deal_center_cards]
  | cons pile piles ih =>
    cases h : deck.getLast? with
    | none =>
      have hd : deck = [] := List.getLast?_eq_none_iff.mp h
      subst hd
      have := ih ([] : List Card)
      simp only [deal_center_cards, List.map_cons, List.sum_cons, List.getLast?_nil]
      omega
    | some card =>
      simp only [deal_center_cards, h, List.map_cons, List.sum_cons, List.length_append,
        List.length_cons, List.length_nil]
      have h1 := ih deck.dropLast
      have h2 : deck.dropLast.length = deck.length - 1 := List.length_dropLast deck
      have hpos : 0 < deck.length := by
        rcases deck with _ | _
        · simp at h
        · simp
      omega

theorem deal_center_cards_nil_deck (piles : List (List Card)) :
    deal_center_cards piles [] = (piles, []) := by
  induction piles with
  | nil => simp [deal_center_cards]
  | cons pile piles ih => simp [deal_center_cards, ih]

theorem deal_center_cards_two (p0 p1 deck : List Card) (h : 2 ≤ deck.length) :
    ∃ c0 c1, deal_center_cards [p0, p1] deck
      = ([p0 ++ [c0], p1 ++ [c1]], deck.dropLast.dropLast) := by
  cases h0 : deck.getLast? with
  | none =>
    have : deck = [] := List.getLast?_eq_none_iff.mp h0
    subst this
    simp at h
  | some c0 =>
    cases h1 : deck.dropLast.getLast? with
    | none =>
      have hd : deck.dropLast = [] := List.getLast?_eq_none_iff.mp h1
      have : deck.dropLast.length = deck.length - 1 := List.length_dropLast deck
      rw [hd] at this
      simp at this
      omega
    | some c1 =>
      refine ⟨c0, c1, ?_⟩
      simp [deal_center_cards, h0, h1]

end Speed

namespace Speed

/-! ### General list helpers -/

theorem sum_map_set {α : Type} (f : α → Nat) (l : List α) (i : Nat) (x d : α)
    (h : i < l.length) :
    ((l.set i x).map f).sum + f (l.getD i d) = (l.map f).sum + f x := by
  induction l generalizing i with
  | nil => simp at h
  | cons a l ih =>
    cases i with
    | zero => simp [List.set]; omega
    | succ i =>
      have hi : i < l.length := by simpa using h
      have := ih i hi
      simp only [List.set, List.map_cons, List.sum_cons, List.getD_cons_succ]
      omega

theorem getD_set_self {α : Type} (l : List α) (i : Nat) (x d : α) (h : i < l.length) :
    (l.set i x).getD i d = x := by
  rw [List.getD_eq_getElem _ _ (by simpa using h)]
  exact List.getElem_set_self _

theorem findIdx?_bound {α : Type} {p : α → Bool} {l : List α} {i : Nat}
    (h : l.findIdx? p = some i) : i < l.length :=
  (List.findIdx?_eq_some_iff_findIdx_eq.mp h).1

theorem findIdx?_prop {α : Type} [Inhabited α] {p : α → Bool} {l : List α} {i : Nat}
    (h : l.findIdx? p = some i) : p (l.getD i default) = true := by
  obtain ⟨h1, h2⟩ := List.findIdx?_eq_some_iff_findIdx_eq.mp h
  rw [List.getD_eq_getElem _ _ h1]
  subst h2
  exact List.findIdx_getElem

/-! ### check_winner -/

theorem check_winner_players (s : GameState) : (check_winner s).players = s.players := by
  unfold check_winner
  split <;> rfl

theorem check_winner_center_piles (s : GameState) :
    (check_winner s).center_piles = s.center_piles := by
  unfold check_winner
  split <;> rfl

theorem check_winner_deck (s : GameState) : (check_winner s).deck = s.deck := by
  unfold check_winner
  split <;> rfl

theorem check_winner_game_started (s : GameState) :
    (check_winner s).game_started = s.game_started := by
  unfold check_winner
  split <;> rfl

theorem check_winner_total (s : GameState) : total_cards (check_winner s) = total_cards s := by
  unfold total_cards
  rw [check_winner_players, check_winner_center_piles, check_winner_deck]

theorem check_winner_of_alive (s : GameState)
    (h : ∀ p ∈ s.players, p.hand ≠ [] ∨ p.draw_pile ≠ []) : check_winner s = s := by
  unfold check_winner
  have hfind : s.players.find? (fun p => p.hand.isEmpty && p.draw_pile.isEmpty) = none := by
    rw [List.find?_eq_none]
    intro p hp
    rcases h p hp with h1 | h1 <;> simp [List.isEmpty_iff, h1]
  rw [hfind]

end Speed

namespace Speed

/-! ### play_card: unchanged fields and card conservation -/

theorem play_card_deck (s : GameState) (pid idx : Nat) :
    (play_card s pid idx).deck = s.deck := by
  simp only [play_card]
  repeat' split
  all_goals rfl

theorem play_card_game_started (s : GameState) (pid idx : Nat) :
    (play_card s pid idx).game_started = s.game_started := by
  simp only [play_card]
  repeat' split
  all_goals rfl

theorem play_card_winner (s : GameState) (pid idx : Nat) :
    (play_card s pid idx).winner = s.winner := by
  simp only [play_card]
  repeat' split
  all_goals rfl

theorem play_card_players_len (s : GameState) (pid idx : Nat) :
    (play_card s pid idx).players.length = s.players.length := by
  simp only [play_card]
  repeat' split
  all_goals simp [List.length_set]

theorem play_card_piles_len (s : GameState) (pid idx : Nat) :
    (play_card s pid idx).center_piles.length = s.center_piles.length := by
  simp only [play_card]
  repeat' split
  all_goals simp [List.length_set]

theorem play_card_total (s : GameState) (pid idx : Nat) :
    total_cards (play_card s pid idx) = total_cards s := by
  simp only [play_card]
  cases hfi : s.players.findIdx? (fun p => p.id == pid) with
  | none => rfl
  | some pi =>
    dsimp only
    have hpi : pi < s.players.length := findIdx?_bound hfi
    by_cases hidx : idx ≥ (s.players.getD pi default).hand.length
    · rw [if_pos hidx]
    · rw [if_neg hidx]
      have hlt : idx < (s.players.getD pi default).hand.length := Nat.lt_of_not_le hidx
      cases hpj : s.center_piles.findIdx?
          (fun pile => pile_accepts ((s.players.getD pi default).hand.getD idx default) pile) with
      | none => rfl
      | some pj =>
        dsimp only
        have hpjlt : pj < s.center_piles.length := findIdx?_bound hpj
        have hhand : ((s.players.getD pi default).hand.eraseIdx idx).length
            = (s.players.getD pi default).hand.length - 1 := by
          rw [List.length_eraseIdx, if_pos hlt]
        cases hdp : (s.players.getD pi default).draw_pile with
        | nil =>
          have e1 := sum_map_set player_cards s.players pi
            { id := (s.players.getD pi default).id,
              hand := (s.players.getD pi default).hand.eraseIdx idx,
              draw_pile := (s.players.getD pi default).draw_pile } default hpi
          have e2 := sum_map_set List.length s.center_piles pj
            (s.center_piles.getD pj []
              ++ [(s.players.getD pi default).hand.getD idx default]) [] hpjlt
          rw [hdp] at e1
          simp only [player_cards, hdp, hhand, List.length_nil, List.length_append,
            List.length_cons] at e1 e2
          simp only [total_cards, player_cards, hdp]
          omega
        | cons c rest =>
          have e1 := sum_map_set player_cards s.players pi
            { id := (s.players.getD pi default).id,
              hand := (s.players.getD pi default).hand.eraseIdx idx ++ [c],
              draw_pile := rest } default hpi
          have e2 := sum_map_set List.length s.center_piles pj
            (s.center_piles.getD pj []
              ++ [(s.players.getD pi default).hand.getD idx default]) [] hpjlt
          simp only [player_cards, hdp, hhand, List.length_nil, List.length_append,
            List.length_cons] at e1 e2
          simp only [total_cards, player_cards, hdp]
          omega

/-! ### request_new_center_cards: unchanged fields and card conservation -/

theorem request_players (s : GameState) :
    (request_new_center_cards s).players = s.players := by
  simp only [request_new_center_cards]
  split <;> rfl

theorem request_game_started (s : GameState) :
    (request_new_center_cards s).game_started = s.game_started := by
  simp only [request_new_center_cards]
  split <;> rfl

theorem request_winner (s : GameState) :
    (request_new_center_cards s).winner = s.winner := by
  simp only [request_new_center_cards]
  split <;> rfl

theorem request_piles_len (s : GameState) :
    (request_new_center_cards s).center_piles.length = s.center_piles.length := by
  simp only [request_new_center_cards]
  split
  · rfl
  · simp [deal_center_cards_fst_len]

theorem request_total (s : GameState) :
    total_cards (request_new_center_cards s) = total_cards s := by
  simp only [request_new_center_cards]
  split
  · rfl
  · have := deal_center_cards_conserve s.center_piles s.deck
    simp only [total_cards]
    omega

/-! ### Conservation for the public entry points -/

theorem add_player_total (s : GameState) (id : Nat) :
    total_cards (add_player s id).1 = total_cards s := by
  simp only [add_player]
  split
  · rfl
  · simp [total_cards, player_cards]

theorem start_game_total (shuffled : List Card) (s : GameState)
    (hlen : shuffled.length = s.deck.length) :
    total_cards (start_game shuffled s) = total_cards s := by
  simp only [start_game]
  split
  · rfl
  · have h1 := deal_cards_conserve s.players shuffled
    have h2 := deal_center_cards_conserve s.center_piles (deal_cards s.players shuffled).2
    simp only [total_cards]
    omega

theorem process_command_total (s : GameState) (c : GameCommand) :
    total_cards (process_command s c) = total_cards s := by
  simp only [process_command]
  split
  · rfl
  · cases hact : c.action with
    | PlayCard i => rw [check_winner_total, play_card_total]
    | RequestNewCenterCards => rw [check_winner_total, request_total]

theorem step_total {a b : GameState} (h : Step a b) : total_cards b = total_cards a := by
  cases h with
  | add id => exact add_player_total a id
  | start shuffled hperm => exact start_game_total shuffled a hperm.length_eq
  | cmd c => exact process_command_total a c

theorem total_cards_new : total_cards GameState.new = 52 := by rfl

end Speed

namespace Speed

/-! ### Shape of a two-player deal -/

theorem deal_cards_two (p q : PlayerState) (deck : List Card) :
    ∃ t1 t2 t3 t4,
      (deal_cards [p, q] deck).1
        = [{ p with hand := p.hand ++ t1, draw_pile := p.draw_pile ++ t2 },
           { q with hand := q.hand ++ t3, draw_pile := q.draw_pile ++ t4 }]
      ∧ t1.length = min 5 deck.length
      ∧ t2.length = min 15 (deck.length - 5)
      ∧ t3.length = min 5 (deck.length - 20)
      ∧ t4.length = min 15 (deck.length - 25) := by
  obtain ⟨t1, ht1, ht1l⟩ := dealN_snd 5 deck p.hand
  obtain ⟨t2, ht2, ht2l⟩ := dealN_snd 15 (dealN 5 deck p.hand).1 p.draw_pile
  obtain ⟨t3, ht3, ht3l⟩ :=
    dealN_snd 5 (dealN 15 (dealN 5 deck p.hand).1 p.draw_pile).1 q.hand
  obtain ⟨t4, ht4, ht4l⟩ :=
    dealN_snd 15 (dealN 5 (dealN 15 (dealN 5 deck p.hand).1 p.draw_pile).1 q.hand).1 q.draw_pile
  have l1 := dealN_fst_len 5 deck p.hand
  have l2 := dealN_fst_len 15 (dealN 5 deck p.hand).1 p.draw_pile
  have l3 := dealN_fst_len 5 (dealN 15 (dealN 5 deck p.hand).1 p.draw_pile).1 q.hand
  refine ⟨t1, t2, t3, t4, ?_, ht1l, ?_, ?_, ?_⟩
  · simp only [deal_cards, ht1, ht2, ht3, ht4]
  · rw [ht2l, l1]
  · rw [ht3l, l2, l1]
    omega
  · rw [ht4l, l3, l2, l1]
    omega

theorem start_game_eq (shuffled : List Card) (s : GameState) (h2 : s.players.length = 2) :
    start_game shuffled s =
      { s with
          players := (deal_cards s.players shuffled).1
          center_piles :=
            (deal_center_cards s.center_piles (deal_cards s.players shuffled).2).1
          deck := (deal_center_cards s.center_piles (deal_cards s.players shuffled).2).2
          game_started := true } := by
  simp only [start_game]
  rw [if_neg]
  intro hc
  exact hc h2

theorem start_game_of_ne_two (shuffled : List Card) (s : GameState)
    (h2 : s.players.length ≠ 2) : start_game shuffled s = s := by
  simp only [start_game]
  rw [if_pos h2]

/-! ### Invariant preservation -/

theorem Inv_new : Inv GameState.new := by
  constructor
  · rfl
  · intro h
    simp [GameState.new] at h
  · intro _
    exact ⟨rfl, rfl, rfl, by intro p hp; simp [GameState.new] at hp⟩
  · intro h
    simp [GameState.new] at h
  · exact ⟨26, rfl⟩

theorem Inv_add (s : GameState) (id : Nat) (hInv : Inv s) : Inv (add_player s id).1 := by
  simp only [add_player]
  split
  · exact hInv
  case isFalse h =>
    constructor
    · exact hInv.piles_len
    · intro hs
      exact absurd (hInv.started_players hs) (by omega)
    · intro hs
      obtain ⟨hd, hc, hw, hp⟩ := hInv.fresh hs
      refine ⟨hd, hc, hw, ?_⟩
      intro p hp'
      rcases List.mem_append.mp hp' with hmem | hmem
      · exact hp p hmem
      · rcases List.mem_singleton.mp hmem with rfl
        exact ⟨rfl, rfl⟩
    · intro hs
      exact absurd (hInv.started_players hs) (by omega)
    · exact hInv.deck_even

end Speed

namespace Speed

theorem create_deck_length : create_deck.length = 52 := by rfl

theorem Inv_start (s : GameState) (shuffled : List Card) (hperm : shuffled.Perm s.deck)
    (hInv : Inv s) : Inv (start_game shuffled s) := by
  by_cases h2 : s.players.length = 2
  case neg => rw [start_game_of_ne_two shuffled s h2]; exact hInv
  case pos =>
    rw [start_game_eq shuffled s h2]
    obtain ⟨p, q, hpq⟩ := List.length_eq_two.mp h2
    obtain ⟨t1, t2, t3, t4, hdc, hl1, hl2, hl3, hl4⟩ := deal_cards_two p q shuffled
    have hlen : shuffled.length = s.deck.length := hperm.length_eq
    constructor
    · simp [deal_center_cards_fst_len, hInv.piles_len]
    · intro _
      simp [deal_cards_fst_len, h2]
    · intro hf
      simp at hf
    · intro _ hw po hpo
      simp only at hw hpo
      rw [hpq] at hpo
      rw [hdc] at hpo
      cases hsg : s.game_started with
      | false =>
        obtain ⟨hdeck, -, -, hempty⟩ := hInv.fresh hsg
        have h52 : shuffled.length = 52 := by rw [hlen, hdeck, create_deck_length]
        have hpmem : p ∈ s.players := by rw [hpq]; simp
        have hqmem : q ∈ s.players := by rw [hpq]; simp
        obtain ⟨hph, hpd⟩ := hempty p hpmem
        obtain ⟨hqh, hqd⟩ := hempty q hqmem
        rcases List.mem_cons.mp hpo with rfl | hpo'
        · left
          simp only [hph, List.nil_append]
          intro hnil
          rw [hnil] at hl1
          simp [h52] at hl1
        · rcases List.mem_singleton.mp hpo' with rfl
          left
          simp only [hqh, List.nil_append]
          intro hnil
          rw [hnil] at hl3
          simp [h52] at hl3
      | true =>
        have halive := hInv.alive hsg hw
        have hpmem : p ∈ s.players := by rw [hpq]; simp
        have hqmem : q ∈ s.players := by rw [hpq]; simp
        rcases List.mem_cons.mp hpo with rfl | hpo'
        · rcases halive p hpmem with hne | hne
          · left
            simp only
            exact fun hx => hne (List.append_eq_nil.mp hx).1
          · right
            simp only
            exact fun hx => hne (List.append_eq_nil.mp hx).1
        · rcases List.mem_singleton.mp hpo' with rfl
          rcases halive q hqmem with hne | hne
          · left
            simp only
            exact fun hx => hne (List.append_eq_nil.mp hx).1
          · right
            simp only
            exact fun hx => hne (List.append_eq_nil.mp hx).1
    · simp only
      rw [deal_center_cards_snd_len, deal_cards_snd_len, hInv.piles_len, h2, hlen]
      obtain ⟨k, hk⟩ := hInv.deck_even
      exact ⟨k - 21, by omega⟩

theorem request_deck_even (s : GameState) (hpiles : s.center_piles.length = 2)
    (he : Even s.deck.length) : Even (request_new_center_cards s).deck.length := by
  simp only [request_new_center_cards]
  split
  · exact he
  case isFalse h =>
    have hne : s.deck ≠ [] := by simpa [List.isEmpty_iff] using h
    have hpos : 0 < s.deck.length := List.length_pos.mpr hne
    simp only
    rw [deal_center_cards_snd_len, hpiles]
    obtain ⟨k, hk⟩ := he
    exact ⟨k - 1, by omega⟩

theorem Inv_cmd (s : GameState) (c : GameCommand) (hInv : Inv s) :
    Inv (process_command s c) := by
  simp only [process_command]
  split
  · exact hInv
  case isFalse hg =>
    simp only [Bool.or_eq_true, Bool.not_eq_eq_eq_not, Bool.not_true, not_or] at hg
    obtain ⟨hs', hw'⟩ := hg
    have hs : s.game_started = true := by
      revert hs'
      cases s.game_started <;> simp
    have hw : s.winner = none := by
      revert hw'
      cases s.winner <;> simp
    -- facts about the dispatched inner state
    have key : ∀ s2 : GameState,
        s2.center_piles.length = 2 → s2.players.length = s.players.length →
        s2.game_started = true → s2.winner = none → Even s2.deck.length →
        Inv (check_winner s2) := by
      intro s2 hp2 hpl2 hst2 hw2 he2
      constructor
      · rw [check_winner_center_piles]
        exact hp2
      · intro _
        rw [check_winner_players, hpl2]
        exact hInv.started_players hs
      · intro hf
        rw [check_winner_game_started, hst2] at hf
        cases hf
      · intro _ hwin po hpo
        rw [check_winner_players] at hpo
        unfold check_winner at hwin
        cases hfind : s2.players.find? (fun p => p.hand.isEmpty && p.draw_pile.isEmpty) with
        | none =>
          have h3 := List.find?_eq_none.mp hfind po hpo
          simp only [List.isEmpty_iff, Bool.and_eq_true, decide_eq_true_eq, not_and_or] at h3
          tauto
        | some w =>
          rw [hfind] at hwin
          simp at hwin
        
      · rw [check_winner_deck]
        exact he2
    cases hact : c.action with
    | PlayCard i =>
      exact key _ (by rw [play_card_piles_len]; exact hInv.piles_len)
        (play_card_players_len s c.player_id i)
        (by rw [play_card_game_started]; exact hs)
        (by rw [play_card_winner]; exact hw)
        (by rw [play_card_deck]; exact hInv.deck_even)
    | RequestNewCenterCards =>
      exact key _ (by rw [request_piles_len]; exact hInv.piles_len)
        (by rw [request_players])
        (by rw [request_game_started]; exact hs)
        (by rw [request_winner]; exact hw)
        (request_deck_even s hInv.piles_len hInv.deck_even)

theorem Inv_reachable (s : GameState) (h : Reachable s) : Inv s := by
  induction h with
  | refl => exact Inv_new
  | tail hab hstep ih =>
    cases hstep with
    | add id => exact Inv_add _ id ih
    | start shuffled hperm => exact Inv_start _ shuffled hperm ih
    | cmd c => exact Inv_cmd _ c ih

theorem reachable_game_after_deal : Reachable game_after_deal :=
  Relation.ReflTransGen.tail
    (Relation.ReflTransGen.tail
      (Relation.ReflTransGen.tail Relation.ReflTransGen.refl (Step.add GameState.new 0))
      (Step.add (add_player GameState.new 0).1 1))
    (Step.start (add_player (add_player GameState.new 0).1 1).1 create_deck (List.Perm.refl _))

end Speed

namespace Speed

/-- Claim C1: Card conservation — in every state reachable from a fresh
engine by any sequence of `add_player`, `start_game` and `process_command`
calls, the deck, all hands, all draw piles and the center piles together
hold exactly 52 cards. -/
theorem card_conservation (s : GameState) (h : Reachable s) : total_cards s = 52 := by
  induction h with
  | refl => exact total_cards_new
  | tail hab hstep ih =>
    rw [step_total hstep]
    exact ih

theorem card_conservation_witness : total_cards game_after_deal = 52 :=
  card_conservation game_after_deal reachable_game_after_deal

end Speed

namespace Speed

/-- Claim C3: Win latch — after a dispatched action, the first player in
player order whose hand and draw pile are both empty is recorded as the
winner; and once the winner is set, `process_command` leaves the state
untouched for every identity and action. -/
theorem win_latch (s : GameState) (cmd : GameCommand) :
    (s.winner.isSome = true → process_command s cmd = s) ∧
    (s.game_started = true → s.winner = none →
      ∀ p : PlayerState,
        (process_command s cmd).players.find?
          (fun q => q.hand.isEmpty && q.draw_pile.isEmpty) = some p →
        (process_command s cmd).winner = some p.id) := by
  constructor
  · intro hw
    simp only [process_command]
    rw [if_pos (by simp [hw])]
  · intro hs hw p hfind
    simp only [process_command] at hfind ⊢
    rw [if_neg (by simp [hs, hw])] at hfind ⊢
    rw [check_winner_players] at hfind
    unfold check_winner
    rw [hfind]

theorem win_latch_witness :
    process_command ⟨[], [[], []], [], true, some 7⟩ ⟨0, PlayerAction.RequestNewCenterCards⟩
        = ⟨[], [[], []], [], true, some 7⟩ ∧
    (process_command ⟨[⟨5, [], []⟩], [[], []], [], true, none⟩
        ⟨5, PlayerAction.RequestNewCenterCards⟩).winner = some 5 :=
  ⟨(win_latch _ _).1 (by decide),
   (win_latch _ _).2 (by decide) (by decide) ⟨5, [], []⟩ (by decide)⟩

/-- Claim C8: Capacity and start gates — with 2 players present,
`add_player` returns `false` and changes nothing; with 0 or 1 players,
`start_game` changes nothing, so in particular `game_started` stays
`false`. -/
theorem capacity_and_start_gates (s : GameState) (id : Nat) (shuffled : List Card) :
    (s.players.length = 2 → add_player s id = (s, false)) ∧
    (s.players.length ≤ 1 →
      start_game shuffled s = s ∧
        (s.game_started = false → (start_game shuffled s).game_started = false)) := by
  constructor
  · intro h2
    simp only [add_player]
    rw [if_pos (by omega)]
  · intro h1
    have hne := start_game_of_ne_two shuffled s (by omega)
    exact ⟨hne, fun hf => by rw [hne]; exact hf⟩

theorem capacity_and_start_gates_witness :
    add_player ⟨[⟨0, [], []⟩, ⟨1, [], []⟩], [[], []], [], false, none⟩ 2
        = (⟨[⟨0, [], []⟩, ⟨1, [], []⟩], [[], []], [], false, none⟩, false) ∧
    start_game create_deck (add_player GameState.new 0).1 = (add_player GameState.new 0).1 :=
  ⟨(capacity_and_start_gates _ 2 []).1 (by decide),
   ((capacity_and_start_gates _ 0 create_deck).2 (by decide)).1⟩

/-- Claim C10: View projection is partial exactly at the empty roster — with
no players, `create_player_view` fails (the source's index-0 fallback reads
`self.players[0]` out of bounds) for every identity; with at least one
player it always produces a view. -/
theorem view_empty_roster (s : GameState) (pid : Nat) :
    (s.players = [] → create_player_view s pid = none) ∧
    (s.players ≠ [] → (create_player_view s pid).isSome = true) := by
  constructor
  · intro h
    simp [create_player_view, h]
  · intro h
    simp only [create_player_view]
    cases hfi : s.players.findIdx? (fun p => p.id == pid) with
    | none =>
      cases hp : s.players with
      | nil => exact absurd hp h
      | cons a l => simp [hp]
    | some i =>
      have hi : i < s.players.length := findIdx?_bound hfi
      cases hget : s.players.get? i with
      | none =>
        have := List.get?_eq_none.mp hget
        omega
      | some player =>
        rw [List.get?_eq_getElem?] at hget
        simp [hget]

theorem view_empty_roster_witness :
    create_player_view ⟨[], [[], []], [], false, none⟩ 0 = none ∧
    (create_player_view ⟨[⟨1, [], []⟩], [[], []], [], false, none⟩ 0).isSome = true :=
  ⟨(view_empty_roster _ 0).1 rfl, (view_empty_roster _ 0).2 (by decide)⟩

/-- The view produced for the player stored at roster index 0 of a
two-player game. -/
theorem cpv_two_fst (s : GameState) (a b : PlayerState) (pid : Nat)
    (hps : s.players = [a, b]) (hpid : pid = a.id) :
    create_player_view s pid = some
      { player_id := pid, hand := a.hand, draw_pile_count := a.draw_pile.length,
        opponent_hand_count := b.hand.length, opponent_draw_pile_count := b.draw_pile.length,
        center_piles := s.center_piles, game_started := s.game_started,
        winner := s.winner } := by
  subst hpid
  simp [create_player_view, hps, List.findIdx?_cons]

/-- The view produced for the player stored at roster index 1 of a
two-player game. -/
theorem cpv_two_snd (s : GameState) (a b : PlayerState) (pid : Nat)
    (hps : s.players = [a, b]) (hna : a.id ≠ pid) (hpid : pid = b.id) :
    create_player_view s pid = some
      { player_id := pid, hand := b.hand, draw_pile_count := b.draw_pile.length,
        opponent_hand_count := a.hand.length, opponent_draw_pile_count := a.draw_pile.length,
        center_piles := s.center_piles, game_started := s.game_started,
        winner := s.winner } := by
  subst hpid
  have hfa : (a.id == b.id) = false := beq_eq_false_iff_ne.mpr hna
  simp [create_player_view, hps, List.findIdx?_cons, hfa]

/-- Claim C7: View asymmetry — in a two-player state the view for a player
carries that player's full hand but only the counts of their draw pile and
of the opponent's hand and draw pile; consequently two states that differ
only in the opponent's hand contents and either draw pile's contents (with
lengths preserved) produce identical views. -/
theorem view_asymmetry (s s' : GameState) (a b a' b' : PlayerState) (pid : Nat)
    (hps : s.players = [a, b]) (hps' : s'.players = [a', b'])
    (hida : a'.id = a.id) (hidb : b'.id = b.id)
    (hpiles : s'.center_piles = s.center_piles)
    (hstart : s'.game_started = s.game_started)
    (hwin : s'.winner = s.winner)
    (had : a'.draw_pile.length = a.draw_pile.length)
    (hbh : b'.hand.length = b.hand.length)
    (hbd : b'.draw_pile.length = b.draw_pile.length)
    (hah : a'.hand.length = a.hand.length) :
    (pid = a.id → a'.hand = a.hand →
      create_player_view s' pid = create_player_view s pid ∧
      create_player_view s pid = some
        { player_id := pid, hand := a.hand, draw_pile_count := a.draw_pile.length,
          opponent_hand_count := b.hand.length, opponent_draw_pile_count := b.draw_pile.length,
          center_piles := s.center_piles, game_started := s.game_started,
          winner := s.winner }) ∧
    (a.id ≠ pid → pid = b.id → b'.hand = b.hand →
      create_player_view s' pid = create_player_view s pid ∧
      create_player_view s pid = some
        { player_id := pid, hand := b.hand, draw_pile_count := b.draw_pile.length,
          opponent_hand_count := a.hand.length, opponent_draw_pile_count := a.draw_pile.length,
          center_piles := s.center_piles, game_started := s.game_started,
          winner := s.winner }) := by
  constructor
  · intro hpid hhand
    have h1 := cpv_two_fst s a b pid hps hpid
    have h2 := cpv_two_fst s' a' b' pid hps' (by rw [hpid, hida])
    refine ⟨?_, h1⟩
    rw [h1, h2, hhand, had, hbh, hbd, hpiles, hstart, hwin]
  · intro hna hpid hhand
    have h1 := cpv_two_snd s a b pid hps hna hpid
    have h2 := cpv_two_snd s' a' b' pid hps' (by rw [hida]; exact hna) (by rw [hpid, hidb])
    refine ⟨?_, h1⟩
    rw [h1, h2, hhand, hah, had, hbd, hpiles, hstart, hwin]

theorem view_asymmetry_witness :
    create_player_view
        ⟨[⟨1, [⟨Suit.Hearts, Rank.Ace⟩], [⟨Suit.Spades, Rank.King⟩]⟩,
          ⟨2, [⟨Suit.Clubs, Rank.Five⟩], [⟨Suit.Diamonds, Rank.Nine⟩]⟩],
         [[], []], [], true, none⟩ 1
      = create_player_view
        ⟨[⟨1, [⟨Suit.Hearts, Rank.Ace⟩], [⟨Suit.Hearts, Rank.Two⟩]⟩,
          ⟨2, [⟨Suit.Hearts, Rank.Three⟩], [⟨Suit.Hearts, Rank.Four⟩]⟩],
         [[], []], [], true, none⟩ 1 ∧
    create_player_view
        ⟨[⟨1, [⟨Suit.Hearts, Rank.Ace⟩], [⟨Suit.Hearts, Rank.Two⟩]⟩,
          ⟨2, [⟨Suit.Hearts, Rank.Three⟩], [⟨Suit.Hearts, Rank.Four⟩]⟩],
         [[], []], [], true, none⟩ 1
      = some ⟨1, [⟨Suit.Hearts, Rank.Ace⟩], 1, 1, 1, [[], []], true, none⟩ :=
  (view_asymmetry
      ⟨[⟨1, [⟨Suit.Hearts, Rank.Ace⟩], [⟨Suit.Hearts, Rank.Two⟩]⟩,
        ⟨2, [⟨Suit.Hearts, Rank.Three⟩], [⟨Suit.Hearts, Rank.Four⟩]⟩],
       [[], []], [], true, none⟩
      ⟨[⟨1, [⟨Suit.Hearts, Rank.Ace⟩], [⟨Suit.Spades, Rank.King⟩]⟩,
        ⟨2, [⟨Suit.Clubs, Rank.Five⟩], [⟨Suit.Diamonds, Rank.Nine⟩]⟩],
       [[], []], [], true, none⟩
      ⟨1, [⟨Suit.Hearts, Rank.Ace⟩], [⟨Suit.Hearts, Rank.Two⟩]⟩
      ⟨2, [⟨Suit.Hearts, Rank.Three⟩], [⟨Suit.Hearts, Rank.Four⟩]⟩
      ⟨1, [⟨Suit.Hearts, Rank.Ace⟩], [⟨Suit.Spades, Rank.King⟩]⟩
      ⟨2, [⟨Suit.Clubs, Rank.Five⟩], [⟨Suit.Diamonds, Rank.Nine⟩]⟩ 1
      rfl rfl rfl rfl rfl rfl rfl rfl rfl rfl rfl).1 rfl rfl

/-- Claim C9: Unknown-identity fallback — when the requested identity is not
in the roster, `create_player_view` silently returns the first player's
perspective (their hand and counts, with the opponent computed as if the
caller were player 0) instead of signaling an error. -/
theorem unknown_identity_fallback (s : GameState) (pid : Nat) (p0 : PlayerState)
    (rest : List PlayerState) (hps : s.players = p0 :: rest)
    (hunknown : ∀ p ∈ s.players, p.id ≠ pid) :
    create_player_view s pid = some
      { player_id := pid
        hand := p0.hand
        draw_pile_count := p0.draw_pile.length
        opponent_hand_count :=
          if 1 < s.players.length then (s.players.getD 1 default).hand.length else 0
        opponent_draw_pile_count :=
          if 1 < s.players.length then (s.players.getD 1 default).draw_pile.length else 0
        center_piles := s.center_piles
        game_started := s.game_started
        winner := s.winner } := by
  have hfi : s.players.findIdx? (fun p => p.id == pid) = none := by
    rw [List.findIdx?_eq_none_iff]
    intro p hp
    simpa using hunknown p hp
  simp only [create_player_view, hfi, Option.getD_none]
  rw [hps]
  by_cases hlen : 1 < (p0 :: rest).length <;>
    simp [hlen] <;>
    by_cases h0 : 0 < rest.length <;>
    simp [h0]

theorem unknown_identity_fallback_witness :
    create_player_view
        ⟨[⟨3, [⟨Suit.Hearts, Rank.Ace⟩], []⟩, ⟨4, [], [⟨Suit.Hearts, Rank.Two⟩]⟩],
         [[], []], [], true, none⟩ 9
      = some ⟨9, [⟨Suit.Hearts, Rank.Ace⟩], 0, 0, 1, [[], []], true, none⟩ :=
  unknown_identity_fallback _ 9 ⟨3, [⟨Suit.Hearts, Rank.Ace⟩], []⟩
    [⟨4, [], [⟨Suit.Hearts, Rank.Two⟩]⟩] rfl (by decide)

end Speed

namespace Speed

/-- Claim C2 (amended): Deal outcome — from a fresh engine, after adding two
players and calling `start_game` with any shuffle outcome, the deck holds 10
cards (the code deals 5 + 15 = 20 cards per player plus one per pile, so
52 − 40 − 2 = 10; the claimed 8 contradicts the code), each player holds 5
hand cards and 15 draw-pile cards, each of the two center piles holds one
card, the game is started and there is no winner. -/
theorem deal_outcome (a b : Nat) (shuffled : List Card)
    (hperm : shuffled.Perm create_deck) :
    (two_player_start a b shuffled).deck.length = 10 ∧
    (two_player_start a b shuffled).players.length = 2 ∧
    (∀ p ∈ (two_player_start a b shuffled).players,
      p.hand.length = 5 ∧ p.draw_pile.length = 15) ∧
    (two_player_start a b shuffled).center_piles.length = 2 ∧
    (∀ pile ∈ (two_player_start a b shuffled).center_piles, pile.length = 1) ∧
    (two_player_start a b shuffled).game_started = true ∧
    (two_player_start a b shuffled).winner = none := by
  have hlen : shuffled.length = 52 := by rw [hperm.length_eq]; rfl
  have hstate : (add_player (add_player GameState.new a).1 b).1
      = { players := [⟨a, [], []⟩, ⟨b, [], []⟩], center_piles := [[], []],
          deck := create_deck, game_started := false, winner := none } := by
    simp [add_player, GameState.new]
  unfold two_player_start
  rw [hstate, start_game_eq _ _ (by rfl)]
  dsimp only
  obtain ⟨t1, t2, t3, t4, hdc, hl1, hl2, hl3, hl4⟩ :=
    deal_cards_two ⟨a, [], []⟩ ⟨b, [], []⟩ shuffled
  have hsnd : (deal_cards [⟨a, [], []⟩, ⟨b, [], []⟩] shuffled).2.length = 12 := by
    rw [deal_cards_snd_len]
    simp [hlen]
  obtain ⟨c0, c1, hcc⟩ :=
    deal_center_cards_two [] [] (deal_cards [⟨a, [], []⟩, ⟨b, [], []⟩] shuffled).2 (by omega)
  rw [hcc, hdc]
  refine ⟨?_, by simp, ?_, by simp, ?_, rfl, rfl⟩
  · have h1 := List.length_dropLast (deal_cards [⟨a, [], []⟩, ⟨b, [], []⟩] shuffled).2
    have h2 := List.length_dropLast (deal_cards [⟨a, [], []⟩, ⟨b, [], []⟩] shuffled).2.dropLast
    dsimp only
    omega
  · intro p hp
    rcases List.mem_cons.mp hp with rfl | hp'
    · constructor <;> simp [hl1, hl2, hlen]
    · rcases List.mem_singleton.mp hp' with rfl
      constructor <;> simp [hl3, hl4, hlen]
  · intro pile hp
    rcases List.mem_cons.mp hp with rfl | hp'
    · simp
    · rcases List.mem_singleton.mp hp' with rfl
      simp


/-- Claim C2 as frozen is false on the code: with the identity shuffle the
deck holds 10 cards after the deal, not 8. -/
theorem deal_outcome_counterexample :
    (two_player_start 0 1 create_deck).deck.length ≠ 8 := by decide

theorem deal_outcome_witness :
    (two_player_start 0 1 create_deck).deck.length = 10 ∧
    (two_player_start 0 1 create_deck).players.length = 2 ∧
    (∀ p ∈ (two_player_start 0 1 create_deck).players,
      p.hand.length = 5 ∧ p.draw_pile.length = 15) ∧
    (two_player_start 0 1 create_deck).center_piles.length = 2 ∧
    (∀ pile ∈ (two_player_start 0 1 create_deck).center_piles, pile.length = 1) ∧
    (two_player_start 0 1 create_deck).game_started = true ∧
    (two_player_start 0 1 create_deck).winner = none :=
  deal_outcome 0 1 create_deck (List.Perm.refl _)

end Speed

namespace Speed

/-- Claim C5: Hand size after a successful PlayCard (known player, in-bounds
index, some qualifying pile) — with a non-empty draw pile the played card is
removed and the draw pile's front card is appended, leaving the hand length
unchanged and the draw pile one shorter; with an empty draw pile the hand
just shrinks by one. -/
theorem hand_size_after_play (s : GameState) (pid idx pi : Nat)
    (hs : s.game_started = true) (hw : s.winner = none)
    (hpi : s.players.findIdx? (fun p => p.id == pid) = some pi)
    (hidx : idx < (s.players.getD pi default).hand.length)
    (hq : (s.center_piles.findIdx?
        (fun pile => pile_accepts ((s.players.getD pi default).hand.getD idx default) pile)).isSome
          = true) :
    ((s.players.getD pi default).draw_pile ≠ [] →
      ((process_command s ⟨pid, PlayerAction.PlayCard idx⟩).players.getD pi default).hand
          = (s.players.getD pi default).hand.eraseIdx idx
            ++ [(s.players.getD pi default).draw_pile.headD default] ∧
      ((process_command s ⟨pid, PlayerAction.PlayCard idx⟩).players.getD pi default).draw_pile
          = (s.players.getD pi default).draw_pile.tail ∧
      ((process_command s ⟨pid, PlayerAction.PlayCard idx⟩).players.getD pi default).hand.length
          = (s.players.getD pi default).hand.length) ∧
    ((s.players.getD pi default).draw_pile = [] →
      ((process_command s ⟨pid, PlayerAction.PlayCard idx⟩).players.getD pi default).hand
          = (s.players.getD pi default).hand.eraseIdx idx ∧
      ((process_command s ⟨pid, PlayerAction.PlayCard idx⟩).players.getD pi default).hand.length + 1
          = (s.players.getD pi default).hand.length) := by
  have hpilt : pi < s.players.length := findIdx?_bound hpi
  obtain ⟨pj, hpj⟩ := Option.isSome_iff_exists.mp hq
  have hcmd : process_command s ⟨pid, PlayerAction.PlayCard idx⟩
      = check_winner (play_card s pid idx) := by
    simp only [process_command]
    rw [if_neg (by simp [hs, hw])]
  rw [hcmd, check_winner_players]
  have herase : ((s.players.getD pi default).hand.eraseIdx idx).length
      = (s.players.getD pi default).hand.length - 1 := by
    rw [List.length_eraseIdx, if_pos hidx]
  simp only [play_card, hpi]
  rw [if_neg (by omega), hpj]
  dsimp only
  cases hdp : (s.players.getD pi default).draw_pile with
  | nil =>
    constructor
    · intro hne
      exact absurd rfl hne
    · intro _
      rw [getD_set_self _ _ _ _ hpilt]
      constructor
      · rfl
      · dsimp only
        omega
  | cons front rest =>
    constructor
    · intro _
      rw [getD_set_self _ _ _ _ hpilt]
      refine ⟨rfl, rfl, ?_⟩
      dsimp only
      rw [List.length_append, herase, List.length_singleton]
      omega
    · intro hnil
      exact (List.cons_ne_nil front rest hnil).elim

/-- In a successful play the chosen pile receives the played card on top
and no other pile changes; which pile was chosen is exactly the scan's
`findIdx?` result. -/
theorem play_card_success_piles (s : GameState) (pid idx pi pj : Nat)
    (hpi : s.players.findIdx? (fun p => p.id == pid) = some pi)
    (hidx : idx < (s.players.getD pi default).hand.length)
    (hpj : s.center_piles.findIdx?
        (fun pile => pile_accepts ((s.players.getD pi default).hand.getD idx default) pile)
      = some pj) :
    (play_card s pid idx).center_piles
      = s.center_piles.set pj
          (s.center_piles.getD pj []
            ++ [(s.players.getD pi default).hand.getD idx default]) := by
  simp only [play_card, hpi]
  rw [if_neg (by omega), hpj]
  cases hdp : (s.players.getD pi default).draw_pile <;> rfl

/-- When no center pile accepts the card, `play_card` changes nothing. -/
theorem play_card_no_pile (s : GameState) (pid idx pi : Nat)
    (hpi : s.players.findIdx? (fun p => p.id == pid) = some pi)
    (hnone : s.center_piles.findIdx?
        (fun pile => pile_accepts ((s.players.getD pi default).hand.getD idx default) pile)
      = none) :
    play_card s pid idx = s := by
  simp only [play_card, hpi]
  by_cases hidx : idx ≥ (s.players.getD pi default).hand.length
  · rw [if_pos hidx]
  · rw [if_neg hidx, hnone]

/-- Claim C4: Deterministic pile choice — the two center piles are scanned
in order (pile 0 before pile 1) and the card lands on the first pile that is
empty or accepts it under `can_play_on`; in particular pile 0 wins whenever
both qualify, and if neither qualifies the whole state is unchanged (on
reachable states). -/
theorem pile_choice (s : GameState) (hr : Reachable s) (pid idx pi : Nat)
    (p0 p1 : List Card)
    (hs : s.game_started = true) (hw : s.winner = none)
    (hpi : s.players.findIdx? (fun p => p.id == pid) = some pi)
    (hidx : idx < (s.players.getD pi default).hand.length)
    (hpiles : s.center_piles = [p0, p1]) :
    (pile_accepts ((s.players.getD pi default).hand.getD idx default) p0 = true →
      (process_command s ⟨pid, PlayerAction.PlayCard idx⟩).center_piles
        = [p0 ++ [(s.players.getD pi default).hand.getD idx default], p1]) ∧
    (pile_accepts ((s.players.getD pi default).hand.getD idx default) p0 = false →
      pile_accepts ((s.players.getD pi default).hand.getD idx default) p1 = true →
      (process_command s ⟨pid, PlayerAction.PlayCard idx⟩).center_piles
        = [p0, p1 ++ [(s.players.getD pi default).hand.getD idx default]]) ∧
    (pile_accepts ((s.players.getD pi default).hand.getD idx default) p0 = false →
      pile_accepts ((s.players.getD pi default).hand.getD idx default) p1 = false →
      process_command s ⟨pid, PlayerAction.PlayCard idx⟩ = s) := by
  have hcmd : process_command s ⟨pid, PlayerAction.PlayCard idx⟩
      = check_winner (play_card s pid idx) := by
    simp only [process_command]
    rw [if_neg (by simp [hs, hw])]
  have halive := (Inv_reachable s hr).alive hs hw
  refine ⟨?_, ?_, ?_⟩
  · intro h0
    have hpj : s.center_piles.findIdx?
        (fun pile => pile_accepts ((s.players.getD pi default).hand.getD idx default) pile)
          = some 0 := by
      rw [hpiles]
      simp only [List.findIdx?_cons]
      rw [h0]
      simp
    rw [hcmd, check_winner_center_piles, play_card_success_piles s pid idx pi 0 hpi hidx hpj,
      hpiles]
    rfl
  · intro h0 h1
    have hpj : s.center_piles.findIdx?
        (fun pile => pile_accepts ((s.players.getD pi default).hand.getD idx default) pile)
          = some 1 := by
      rw [hpiles]
      simp only [List.findIdx?_cons]
      rw [h0, h1]
      simp
    rw [hcmd, check_winner_center_piles, play_card_success_piles s pid idx pi 1 hpi hidx hpj,
      hpiles]
    rfl
  · intro h0 h1
    have hnone : s.center_piles.findIdx?
        (fun pile => pile_accepts ((s.players.getD pi default).hand.getD idx default) pile)
          = none := by
      rw [hpiles]
      simp only [List.findIdx?_cons]
      rw [h0, h1]
      simp
    rw [hcmd, play_card_no_pile s pid idx pi hpi hnone]
    exact check_winner_of_alive s halive

/-- Claim C6: RequestNewCenterCards — on a started, winnerless reachable
state the command is a complete no-op when the deck is empty, and otherwise
deals exactly one deck card onto each of the two center piles regardless of
their contents, shrinking the deck by two and leaving players and flags
unchanged. -/
theorem request_center_spec (s : GameState) (hr : Reachable s) (pid : Nat)
    (hs : s.game_started = true) (hw : s.winner = none) :
    (s.deck = [] → process_command s ⟨pid, PlayerAction.RequestNewCenterCards⟩ = s) ∧
    (s.deck ≠ [] → ∃ p0 p1 c0 c1,
      s.center_piles = [p0, p1] ∧
      (process_command s ⟨pid, PlayerAction.RequestNewCenterCards⟩).center_piles
        = [p0 ++ [c0], p1 ++ [c1]] ∧
      (process_command s ⟨pid, PlayerAction.RequestNewCenterCards⟩).deck.length + 2
        = s.deck.length ∧
      (process_command s ⟨pid, PlayerAction.RequestNewCenterCards⟩).players = s.players ∧
      (process_command s ⟨pid, PlayerAction.RequestNewCenterCards⟩).game_started
        = s.game_started ∧
      (process_command s ⟨pid, PlayerAction.RequestNewCenterCards⟩).winner = s.winner) := by
  have hInv := Inv_reachable s hr
  have halive := hInv.alive hs hw
  have hcmd : process_command s ⟨pid, PlayerAction.RequestNewCenterCards⟩
      = check_winner (request_new_center_cards s) := by
    simp only [process_command]
    rw [if_neg (by simp [hs, hw])]
  constructor
  · intro hdeck
    have hreq : request_new_center_cards s = s := by
      simp only [request_new_center_cards]
      rw [if_pos (by simp [hdeck])]
    rw [hcmd, hreq, check_winner_of_alive s halive]
  · intro hdeck
    obtain ⟨p0, p1, hp⟩ := List.length_eq_two.mp hInv.piles_len
    have hlen2 : 2 ≤ s.deck.length := by
      obtain ⟨k, hk⟩ := hInv.deck_even
      have := List.length_pos.mpr hdeck
      omega
    obtain ⟨c0, c1, hcc⟩ := deal_center_cards_two p0 p1 s.deck hlen2
    have hreq : request_new_center_cards s
        = { s with center_piles := [p0 ++ [c0], p1 ++ [c1]],
                   deck := s.deck.dropLast.dropLast } := by
      simp only [request_new_center_cards]
      rw [if_neg (by simp [List.isEmpty_iff, hdeck]), hp, hcc]
    have hcw : check_winner (request_new_center_cards s) = request_new_center_cards s := by
      apply check_winner_of_alive
      rw [hreq]
      exact halive
    have h1 := List.length_dropLast s.deck
    have h2 := List.length_dropLast s.deck.dropLast
    refine ⟨p0, p1, c0, c1, hp, ?_, ?_, ?_, ?_, ?_⟩ <;> rw [hcmd, hcw, hreq]
    all_goals first
      | rfl
      | (dsimp only; omega)

theorem reachable_game_deck_empty : Reachable game_deck_empty :=
  Relation.ReflTransGen.tail
    (Relation.ReflTransGen.tail
      (Relation.ReflTransGen.tail
        (Relation.ReflTransGen.tail
          (Relation.ReflTransGen.tail reachable_game_after_deal
            (Step.cmd game_after_deal ⟨0, PlayerAction.RequestNewCenterCards⟩))
          (Step.cmd _ ⟨0, PlayerAction.RequestNewCenterCards⟩))
        (Step.cmd _ ⟨0, PlayerAction.RequestNewCenterCards⟩))
      (Step.cmd _ ⟨0, PlayerAction.RequestNewCenterCards⟩))
    (Step.cmd _ ⟨0, PlayerAction.RequestNewCenterCards⟩)

theorem hand_size_after_play_witness :
    ((process_command game_after_deal ⟨0, PlayerAction.PlayCard 0⟩).players.getD 0 default).hand
        = (game_after_deal.players.getD 0 default).hand.eraseIdx 0
          ++ [(game_after_deal.players.getD 0 default).draw_pile.headD default] ∧
    ((process_command game_after_deal ⟨0, PlayerAction.PlayCard 0⟩).players.getD 0
          default).draw_pile
        = (game_after_deal.players.getD 0 default).draw_pile.tail ∧
    ((process_command game_after_deal ⟨0, PlayerAction.PlayCard 0⟩).players.getD 0
          default).hand.length
        = (game_after_deal.players.getD 0 default).hand.length :=
  (hand_size_after_play game_after_deal 0 0 0 (by decide) (by decide) (by decide) (by decide)
    (by decide)).1 (by decide)

theorem pile_choice_witness :
    (process_command game_after_deal ⟨0, PlayerAction.PlayCard 0⟩).center_piles
      = [[⟨Suit.Hearts, Rank.Queen⟩, ⟨Suit.Spades, Rank.King⟩], [⟨Suit.Hearts, Rank.Jack⟩]] :=
  (pile_choice game_after_deal reachable_game_after_deal 0 0 0
    [⟨Suit.Hearts, Rank.Queen⟩] [⟨Suit.Hearts, Rank.Jack⟩]
    (by decide) (by decide) (by decide) (by decide) (by decide)).1 (by decide)

theorem request_center_spec_witness :
    (process_command game_deck_empty ⟨0, PlayerAction.RequestNewCenterCards⟩
        = game_deck_empty) ∧
    (∃ p0 p1 c0 c1,
      game_after_deal.center_piles = [p0, p1] ∧
      (process_command game_after_deal ⟨0, PlayerAction.RequestNewCenterCards⟩).center_piles
        = [p0 ++ [c0], p1 ++ [c1]] ∧
      (process_command game_after_deal ⟨0, PlayerAction.RequestNewCenterCards⟩).deck.length + 2
        = game_after_deal.deck.length ∧
      (process_command game_after_deal ⟨0, PlayerAction.RequestNewCenterCards⟩).players
        = game_after_deal.players ∧
      (process_command game_after_deal ⟨0, PlayerAction.RequestNewCenterCards⟩).game_started
        = game_after_deal.game_started ∧
      (process_command game_after_deal ⟨0, PlayerAction.RequestNewCenterCards⟩).winner
        = game_after_deal.winner) :=
  ⟨(request_center_spec game_deck_empty reachable_game_deck_empty 0
      (by decide) (by decide)).1 (by decide),
   (request_center_spec game_after_deal reachable_game_after_deal 0
      (by decide) (by decide)).2 (by decide)⟩

end Speed
